import Mathlib

/-!
# Verification of the `networking` messaging framework

A shallow embedding, in Lean 4, of the core messaging pipeline of the
repository (wire codec, incremental reader, outgoing-message writer and the
connection controller), together with theorems settling the frozen claims
about it.

Modelling conventions:

* Byte buffers (`Buffer` / `Uint8Array` in the source) are `List Nat`, each
  element standing for one byte.
* Strings (channel names, JSON string values) are represented by their UTF-8
  byte sequences (`List Nat`); the host's UTF-8 encode/decode that happens at
  `Buffer.from(string)` / `buffer.toString()` boundaries is a bijection on
  valid strings, so the byte-level view is faithful.
* Machine-integer writes (`writeUInt8`, `writeUInt32BE`, `writeUIntBE`) are
  modelled with explicit `% 256` masking of each emitted byte; the source
  instead throws on out-of-range input, and the claims only concern in-range
  values, where the two agree.
* Fallible code (`throw` in the source) becomes `Option`-returning code.
* The host's `JSON.stringify` / `JSON.parse` pair (external to the
  repository) is modelled by an executable byte-level JSON serializer and
  parser; JSON numbers are restricted to integers (JavaScript floats are not
  representable in the embedding, and the round-trip claims condition on
  values that survive stringify/parse).
-/

/-- Byte buffers: one `Nat` per byte. -/
abbrev Bytes := List Nat

/-- Concatenation of a list of buffers (`Buffer.concat` in the source). -/
def bytesFlatten : List Bytes → Bytes
  | [] => []
  | b :: rest => b ++ bytesFlatten rest

/-! ## Enums (`src/packages/common/src/enums/network.ts`)

The TypeScript enums are numeric; at the wire and in parsed messages the
values are plain numbers (the parser performs no validation), so message and
payload types are modelled as `Nat` with named constants for the enum
members. -/

namespace MessageType

def System : Nat := 0

def Event : Nat := 1

def Binary : Nat := 2

def Request : Nat := 3

def Response : Nat := 4

def Stream : Nat := 5

end MessageType

namespace MessagePayloadType

def Binary : Nat := 0

def Json : Nat := 1

end MessagePayloadType

/-! ## JSON values and the host JSON codec

`Json` models the JavaScript JSON values carried by `Json` payloads.
Strings are UTF-8 byte sequences; numbers are integers (see header note). -/

inductive Json where
  | null : Json
  | bool (b : Bool) : Json
  | num (n : Int) : Json
  | str (s : Bytes) : Json
  | arr (elements : List Json) : Json
  | obj (fields : List (Bytes × Json)) : Json

/-- ASCII hex digit (upper-case not needed: `JSON.stringify` emits lower). -/
def hexDigitByte (n : Nat) : Nat :=
  if n < 10 then 48 + n else 87 + n

/-- Decimal digits (ASCII) of a natural number; auxiliary fuel recursion. -/
def natDigitsAux : Nat → Nat → Bytes
  | 0, _ => []
  | fuel + 1, n => if n = 0 then [] else natDigitsAux fuel (n / 10) ++ [48 + n % 10]

/-- Decimal ASCII representation of a natural number. -/
def natDigits (n : Nat) : Bytes :=
  if n = 0 then [48] else natDigitsAux n n

/-- Decimal ASCII representation of an integer (what `JSON.stringify` emits
for an integral number). -/
def intDigits (i : Int) : Bytes :=
  if i < 0 then 45 :: natDigits i.natAbs else natDigits i.toNat

/-- Escaping of one byte of a JSON string, as performed by `JSON.stringify`:
quote and backslash are backslash-escaped, control characters use the short
escapes or `\u00XX`, everything else (including UTF-8 continuation bytes)
passes through verbatim. -/
def escapeByte (b : Nat) : Bytes :=
  if b = 34 then [92, 34]
  else if b = 92 then [92, 92]
  else if b = 8 then [92, 98]
  else if b = 9 then [92, 116]
  else if b = 10 then [92, 110]
  else if b = 12 then [92, 102]
  else if b = 13 then [92, 114]
  else if b < 32 then [92, 117, 48, 48, hexDigitByte (b / 16), hexDigitByte (b % 16)]
  else [b]

/-- A JSON string literal: quote, escaped content bytes, quote. -/
def stringifyString (s : Bytes) : Bytes :=
  34 :: bytesFlatten (s.map escapeByte) ++ [34]

mutual

/-- Model of `JSON.stringify`, producing UTF-8 bytes. -/
def stringifyJson : Json → Bytes
  | .null => [110, 117, 108, 108]
  | .bool true => [116, 114, 117, 101]
  | .bool false => [102, 97, 108, 115, 101]
  | .num i => intDigits i
  | .str s => stringifyString s
  | .arr xs => 91 :: stringifyArrItems xs ++ [93]
  | .obj kvs => 123 :: stringifyObjItems kvs ++ [125]

/-- Comma-separated serialization of array elements. -/
def stringifyArrItems : List Json → Bytes
  | [] => []
  | [x] => stringifyJson x
  | x :: xs => stringifyJson x ++ [44] ++ stringifyArrItems xs

/-- Comma-separated serialization of object fields. -/
def stringifyObjItems : List (Bytes × Json) → Bytes
  | [] => []
  | [(k, v)] => stringifyString k ++ [58] ++ stringifyJson v
  | (k, v) :: kvs => stringifyString k ++ [58] ++ stringifyJson v ++ [44] ++ stringifyObjItems kvs

end

/-- JSON insignificant whitespace skipping. -/
def skipWs : Bytes → Bytes
  | [] => []
  | b :: rest => if b = 32 ∨ b = 9 ∨ b = 10 ∨ b = 13 then skipWs rest else b :: rest

/-- Value of an ASCII hex digit, if it is one. -/
def hexVal (b : Nat) : Option Nat :=
  if 48 ≤ b ∧ b ≤ 57 then some (b - 48)
  else if 97 ≤ b ∧ b ≤ 102 then some (b - 87)
  else if 65 ≤ b ∧ b ≤ 70 then some (b - 55)
  else none

/-- UTF-8 encoding of a Unicode scalar value (used when decoding `\uXXXX`
escapes back into the byte representation of the string). -/
def utf8EncodeNat (n : Nat) : Bytes :=
  if n < 128 then [n]
  else if n < 2048 then [192 + n / 64, 128 + n % 64]
  else if n < 65536 then [224 + n / 4096, 128 + n / 64 % 64, 128 + n % 64]
  else [240 + n / 262144, 128 + n / 4096 % 64, 128 + n / 64 % 64, 128 + n % 64]

/-- Parses the body of a JSON string literal (after the opening quote),
returning the decoded bytes and the input after the closing quote. -/
def parseStringBody : Bytes → Option (Bytes × Bytes)
  | [] => none
  | 34 :: rest => some ([], rest)
  | 92 :: 117 :: h1 :: h2 :: h3 :: h4 :: rest => do
    let a ← hexVal h1
    let b ← hexVal h2
    let c ← hexVal h3
    let d ← hexVal h4
    let (s, r) ← parseStringBody rest
    pure (utf8EncodeNat (((a * 16 + b) * 16 + c) * 16 + d) ++ s, r)
  | 92 :: e :: rest => do
    let decoded ←
      if e = 34 then some [34]
      else if e = 92 then some [92]
      else if e = 47 then some [47]
      else if e = 98 then some [8]
      else if e = 116 then some [9]
      else if e = 110 then some [10]
      else if e = 102 then some [12]
      else if e = 114 then some [13]
      else none
    let (s, r) ← parseStringBody rest
    pure (decoded ++ s, r)
  | 92 :: [] => none
  | b :: rest => do
    let (s, r) ← parseStringBody rest
    pure (b :: s, r)

/-- True for ASCII decimal digits. -/
def isDigitByte (b : Nat) : Bool :=
  48 ≤ b && b ≤ 57

/-- Numeric value of a digit run. -/
def digitsVal (l : Bytes) : Nat :=
  l.foldl (fun acc b => acc * 10 + (b - 48)) 0

/-- Parses a JSON number. The model only accepts integral numbers: a fraction
or exponent part makes the parse fail (such values are floats, which the
embedding does not represent; round-trip claims condition on surviving
values, which excludes them). -/
def parseNumber (input : Bytes) : Option (Json × Bytes) :=
  let (neg, body) :=
    match input with
    | 45 :: rest => (true, rest)
    | _ => (false, input)
  let digits := body.takeWhile (fun b => isDigitByte b)
  let rest := body.dropWhile (fun b => isDigitByte b)
  if digits.isEmpty then none
  else
    match rest with
    | 46 :: _ => none
    | 101 :: _ => none
    | 69 :: _ => none
    | _ =>
      let n : Int := Int.ofNat (digitsVal digits)
      some (.num (if neg then -n else n), rest)

mutual

/-- Model of `JSON.parse` on UTF-8 bytes: parse one value, returning it and
the remaining input. Fuel bounds the recursion; `parseJson` supplies enough
for any input it is given. -/
def parseValue : Nat → Bytes → Option (Json × Bytes)
  | 0, _ => none
  | fuel + 1, input =>
    match skipWs input with
    | [] => none
    | c :: rest =>
      if c = 110 then
        match rest with
        | 117 :: 108 :: 108 :: r => some (.null, r)
        | _ => none
      else if c = 116 then
        match rest with
        | 114 :: 117 :: 101 :: r => some (.bool true, r)
        | _ => none
      else if c = 102 then
        match rest with
        | 97 :: 108 :: 115 :: 101 :: r => some (.bool false, r)
        | _ => none
      else if c = 34 then
        match parseStringBody rest with
        | some (s, r) => some (.str s, r)
        | none => none
      else if c = 91 then
        match skipWs rest with
        | 93 :: r => some (.arr [], r)
        | _ => parseArrItems fuel rest []
      else if c = 123 then
        match skipWs rest with
        | 125 :: r => some (.obj [], r)
        | _ => parseObjItems fuel rest []
      else
        parseNumber (c :: rest)

/-- Parses the elements of a non-empty JSON array (after `[`). -/
def parseArrItems : Nat → Bytes → List Json → Option (Json × Bytes)
  | 0, _, _ => none
  | fuel + 1, input, acc => do
    let (v, r) ← parseValue fuel input
    match skipWs r with
    | 44 :: r2 => parseArrItems fuel r2 (acc ++ [v])
    | 93 :: r2 => some (.arr (acc ++ [v]), r2)
    | _ => none

/-- Parses the fields of a non-empty JSON object (after `{`). -/
def parseObjItems : Nat → Bytes → List (Bytes × Json) → Option (Json × Bytes)
  | 0, _, _ => none
  | fuel + 1, input, acc =>
    match skipWs input with
    | 34 :: rest => do
      let (k, r) ← parseStringBody rest
      match skipWs r with
      | 58 :: r2 => do
        let (v, r3) ← parseValue fuel r2
        match skipWs r3 with
        | 44 :: r4 => parseObjItems fuel r4 (acc ++ [(k, v)])
        | 125 :: r4 => some (.obj (acc ++ [(k, v)]), r4)
        | _ => none
      | _ => none
    | _ => none

end

/-- Model of `JSON.parse`: the whole input must be a single value, up to
trailing whitespace. -/
def parseJson (input : Bytes) : Option Json :=
  match parseValue (2 * input.length + 4) input with
  | some (v, rest) => if skipWs rest = [] then some v else none
  | none => none

/-! ## Message payloads (`MessagePayload`, `src/unnamed/part_003`)

`MessagePayload` is a tagged union over binary data and JSON values; the
`type` field of the source class becomes the constructor tag. -/

inductive MessagePayload where
  | binary (data : Bytes) : MessagePayload
  | json (value : Json) : MessagePayload

namespace MessagePayload

/-- The numeric `MessagePayloadType` tag of a payload. -/
def type : MessagePayload → Nat
  | .binary _ => MessagePayloadType.Binary
  | .json _ => MessagePayloadType.Json

/-- `MessagePayload._encodeJsonToBuffer`: a `0x00` format marker followed by
the UTF-8 bytes of `JSON.stringify(data)`. -/
def _encodeJsonToBuffer (data : Json) : Bytes :=
  0 :: stringifyJson data

/-- `MessagePayload._decodeJsonFromBuffer`: fails unless the format marker is
`0x00`, then `JSON.parse`s the remaining bytes. (An empty buffer has no
marker byte and fails too.) -/
def _decodeJsonFromBuffer (data : Bytes) : Option Json :=
  match data with
  | 0 :: rest => parseJson rest
  | _ => none

/-- `MessagePayload.toBuffer`: binary data verbatim, JSON via
`_encodeJsonToBuffer`. -/
def toBuffer : MessagePayload → Bytes
  | .binary data => data
  | .json value => _encodeJsonToBuffer value

/-- `MessagePayload.from`: restores a payload from its type tag and encoded
bytes; unknown tags fail. -/
def from' (type : Nat) (data : Bytes) : Option MessagePayload :=
  if type = MessagePayloadType.Binary then some (.binary data)
  else if type = MessagePayloadType.Json then (_decodeJsonFromBuffer data).map .json
  else none

end MessagePayload

/-! ## Messages (`Message`, `src/packages/common/src/classes/messages/Message.ts`) -/

structure Message where
  id : Nat
  type : Nat
  channel : Bytes
  payloads : List MessagePayload

/-! ## Wire codec (`NetworkSerializer`,
`src/packages/common/src/classes/network/NetworkSerializer.ts`)

Big-endian multi-byte writes are expanded into their byte lists; reads that
would throw on a too-short buffer (`readUInt8`, `readUInt32BE`,
`readUIntBE`) return `none`, while `subarray`/`slice` clamp like the host
functions. -/

/-- Bytes of `writeUInt32BE n` (big-endian, masked to 32 bits). -/
def writeUInt32BE (n : Nat) : Bytes :=
  [n / 16777216 % 256, n / 65536 % 256, n / 256 % 256, n % 256]

/-- Bytes of `writeUIntBE n 3` (24-bit big-endian, masked). -/
def writeUIntBE3 (n : Nat) : Bytes :=
  [n / 65536 % 256, n / 256 % 256, n % 256]

/-- `buffer.readUInt32BE(i)`; fails (the source throws) when fewer than four
bytes are available at `i`. -/
def readUInt32BE (b : Bytes) (i : Nat) : Option Nat := do
  let x0 ← b[i]?
  let x1 ← b[i + 1]?
  let x2 ← b[i + 2]?
  let x3 ← b[i + 3]?
  pure (x0 * 16777216 + x1 * 65536 + x2 * 256 + x3)

/-- `buffer.readUIntBE(i, 3)`; fails when fewer than three bytes remain. -/
def readUIntBE3 (b : Bytes) (i : Nat) : Option Nat := do
  let x0 ← b[i]?
  let x1 ← b[i + 1]?
  let x2 ← b[i + 2]?
  pure (x0 * 65536 + x1 * 256 + x2)

namespace NetworkSerializer

/-- `NetworkSerializer._getHeaderBuffer`: message id (uint32 BE), type
(uint8), channel length (uint8), channel bytes, payload count (uint8). -/
def _getHeaderBuffer (options : Message) : Bytes :=
  writeUInt32BE options.id ++
    [options.type % 256] ++
    [options.channel.length % 256] ++
    options.channel ++
    [options.payloads.length % 256]

/-- `NetworkSerializer._getPayloadBuffers`: per payload, the type tag, the
24-bit big-endian size of the encoded data, then the data. -/
def _getPayloadBuffers (options : Message) : List Bytes :=
  options.payloads.map fun payload =>
    [payload.type] ++ writeUIntBE3 payload.toBuffer.length ++ payload.toBuffer

/-- `NetworkSerializer.serializeMessage`: start marker `0xDD 0xF0`, header,
then the payload buffers. -/
def serializeMessage (message : Message) : Bytes :=
  [221, 240] ++ _getHeaderBuffer message ++ bytesFlatten (_getPayloadBuffers message)

/-- Result record of `_parseHeaderFromBuffer`. -/
structure ParsedHeaderData where
  id : Nat
  type : Nat
  channel : Bytes
  payloadCount : Nat
  payloadStartOffset : Nat

/-- `NetworkSerializer._parseHeaderFromBuffer` (applied after the two marker
bytes have been stripped). -/
def _parseHeaderFromBuffer (buffer : Bytes) : Option ParsedHeaderData := do
  let messageId ← readUInt32BE buffer 0
  let messageType ← buffer[4]?
  let channelNameLength ← buffer[5]?
  let channelName := (buffer.drop 6).take channelNameLength
  let payloadCount ← buffer[6 + channelNameLength]?
  pure ⟨messageId, messageType, channelName, payloadCount, 7 + channelNameLength⟩

/-- The loop body of `NetworkSerializer._parsePayloadsFromBuffer`: reads
`count` payloads starting at `offset`. The data slice clamps at the end of
the buffer (like `Buffer.slice`), and the offset advances by the number of
bytes actually obtained. -/
def parsePayloadsLoop (buffer : Bytes) : Nat → Nat → Option (List MessagePayload)
  | 0, _ => some []
  | count + 1, offset => do
    let type ← buffer[offset]?
    let size ← readUIntBE3 buffer (offset + 1)
    let data := (buffer.drop (offset + 4)).take size
    let payload ← MessagePayload.from' type data
    let rest ← parsePayloadsLoop buffer count (offset + 4 + data.length)
    pure (payload :: rest)

/-- `NetworkSerializer._parsePayloadsFromBuffer`. -/
def _parsePayloadsFromBuffer (buffer : Bytes) (count : Nat) : Option (List MessagePayload) :=
  parsePayloadsLoop buffer count 0

/-- `NetworkSerializer.parseMessage`: checks the `0xDD 0xF0` marker, parses
the header, then the payloads from `payloadStartOffset`, and rebuilds the
`Message`. -/
def parseMessage (data : Bytes) : Option Message := do
  if data[0]? = some 221 ∧ data[1]? = some 240 then
    let header ← _parseHeaderFromBuffer (data.drop 2)
    let payloads ← _parsePayloadsFromBuffer (data.drop (2 + header.payloadStartOffset)) header.payloadCount
    pure ⟨header.id, header.type, header.channel, payloads⟩
  else
    none

end NetworkSerializer

/-! ## Round-trip lemmas for the codec (claim C1) -/

/-- A payload survives the host JSON codec: trivial for binary payloads,
`JSON.parse (JSON.stringify v) = v` for JSON payloads. -/
def payloadRoundTrips : MessagePayload → Prop
  | .binary _ => True
  | .json v => parseJson (stringifyJson v) = some v

/-- Validity of a message, mirroring the constraints the wire format can
carry (and under which the source serializer does not throw): 32-bit id,
type a byte (any `MessageType` value is), channel of at most 255 encoded
bytes, at most 255 payloads, each payload's encoded data shorter than
`2^24`, and JSON payload values surviving stringify/parse. -/
def Message.WellFormed (m : Message) : Prop :=
  m.id < 4294967296 ∧ m.type < 256 ∧ m.channel.length ≤ 255 ∧
    m.payloads.length ≤ 255 ∧
    ∀ p ∈ m.payloads, p.toBuffer.length < 16777216 ∧ payloadRoundTrips p

theorem MessagePayload.from'_type_toBuffer (p : MessagePayload) (h : payloadRoundTrips p) :
    MessagePayload.from' p.type p.toBuffer = some p := by
  cases p with
  | binary d => rfl
  | json v =>
    simp only [payloadRoundTrips] at h
    simp [MessagePayload.from', MessagePayload.type, MessagePayloadType.Json,
      MessagePayloadType.Binary, MessagePayload.toBuffer, MessagePayload._encodeJsonToBuffer,
      MessagePayload._decodeJsonFromBuffer, h]

theorem getElem?_of_drop_eq {b t : Bytes} {o : Nat} (h : b.drop o = t) (j : Nat) :
    b[o + j]? = t[j]? := by
  rw [← h, List.getElem?_drop]

theorem getElem?_cons6 (x0 x1 x2 x3 x4 x5 : Nat) (t : Bytes) (k : Nat) :
    (x0 :: x1 :: x2 :: x3 :: x4 :: x5 :: t)[6 + k]? = t[k]? := by
  rw [show 6 + k = k + 1 + 1 + 1 + 1 + 1 + 1 from by omega]
  simp [List.getElem?_cons_succ]

namespace NetworkSerializer

theorem _parseHeaderFromBuffer_append (id ty count : Nat) (channel P : Bytes)
    (hid : id < 4294967296) :
    _parseHeaderFromBuffer (writeUInt32BE id ++ [ty] ++ [channel.length] ++ channel ++ [count] ++ P)
      = some ⟨id, ty, channel, count, 7 + channel.length⟩ := by
  have hbuf : writeUInt32BE id ++ [ty] ++ [channel.length] ++ channel ++ [count] ++ P
      = (id / 16777216 % 256) :: (id / 65536 % 256) :: (id / 256 % 256) :: (id % 256)
        :: ty :: channel.length :: (channel ++ ([count] ++ P)) := by
    simp [writeUInt32BE]
  rw [hbuf]
  have hcount : (channel ++ ([count] ++ P))[channel.length]? = some count := by
    rw [List.getElem?_append_right (Nat.le_refl _)]
    simp
  simp only [_parseHeaderFromBuffer, readUInt32BE, List.getElem?_cons_zero,
    List.getElem?_cons_succ, getElem?_cons6, hcount, Option.bind_eq_bind, Option.some_bind]
  rw [List.drop_succ_cons, List.drop_succ_cons, List.drop_succ_cons, List.drop_succ_cons,
    List.drop_succ_cons, List.drop_succ_cons, List.drop_zero, List.take_left]
  have : id / 16777216 % 256 * 16777216 + id / 65536 % 256 * 65536 + id / 256 % 256 * 256 + id % 256
      = id := by omega
  simp [this]

/-- The flattened payload section the serializer emits for a payload list. -/
theorem bytesFlatten_payload_cons (p : MessagePayload) (ps : List MessagePayload) :
    bytesFlatten ((p :: ps).map fun q => [q.type] ++ writeUIntBE3 q.toBuffer.length ++ q.toBuffer)
      = p.type :: (p.toBuffer.length / 65536 % 256) :: (p.toBuffer.length / 256 % 256)
          :: (p.toBuffer.length % 256)
          :: (p.toBuffer ++ bytesFlatten (ps.map fun q => [q.type] ++ writeUIntBE3 q.toBuffer.length ++ q.toBuffer)) := by
  simp [bytesFlatten, writeUIntBE3]

theorem parsePayloadsLoop_of_encoded (ps : List MessagePayload) :
    ∀ (b : Bytes) (offset : Nat),
      b.drop offset = bytesFlatten (ps.map fun p => [p.type] ++ writeUIntBE3 p.toBuffer.length ++ p.toBuffer) →
      (∀ p ∈ ps, p.toBuffer.length < 16777216 ∧ payloadRoundTrips p) →
      parsePayloadsLoop b ps.length offset = some ps := by
  induction ps with
  | nil => intro b offset _ _; rfl
  | cons p ps ih =>
    intro b offset hdrop hwf
    obtain ⟨⟨hsize, hrt⟩, hwf'⟩ : (p.toBuffer.length < 16777216 ∧ payloadRoundTrips p) ∧ _ := by
      refine ⟨hwf p (List.mem_cons_self _ _), fun q hq => hwf q (List.mem_cons_of_mem _ hq)⟩
    rw [bytesFlatten_payload_cons] at hdrop
    have e0 : b[offset]? = some p.type := by
      have := getElem?_of_drop_eq hdrop 0
      simpa using this
    have e1 : b[offset + 1]? = some (p.toBuffer.length / 65536 % 256) := by
      simpa using getElem?_of_drop_eq hdrop 1
    have e2 : b[offset + 1 + 1]? = some (p.toBuffer.length / 256 % 256) := by
      simpa [Nat.add_assoc] using getElem?_of_drop_eq hdrop 2
    have e3 : b[offset + 1 + 2]? = some (p.toBuffer.length % 256) := by
      simpa [Nat.add_assoc] using getElem?_of_drop_eq hdrop 3
    have hsz : p.toBuffer.length / 65536 % 256 * 65536 + p.toBuffer.length / 256 % 256 * 256
        + p.toBuffer.length % 256 = p.toBuffer.length := by omega
    have hdrop4 : b.drop (offset + 4) = p.toBuffer
        ++ bytesFlatten (ps.map fun q => [q.type] ++ writeUIntBE3 q.toBuffer.length ++ q.toBuffer) := by
      rw [← List.drop_drop, hdrop]
      rfl
    have hdata : (b.drop (offset + 4)).take p.toBuffer.length = p.toBuffer := by
      rw [hdrop4, List.take_left]
    have hrest : b.drop (offset + 4 + p.toBuffer.length)
        = bytesFlatten (ps.map fun q => [q.type] ++ writeUIntBE3 q.toBuffer.length ++ q.toBuffer) := by
      rw [← List.drop_drop, hdrop4, List.drop_left]
    simp only [List.length_cons, parsePayloadsLoop, e0, readUIntBE3, e1, e2, e3,
      Option.bind_eq_bind, Option.some_bind, Option.pure_def, hsz, hdata]
    rw [MessagePayload.from'_type_toBuffer p hrt, ih b (offset + 4 + p.toBuffer.length) hrest hwf']
    rfl

/-- **C1.** Parsing the serialization of a well-formed message yields the
message back, structurally equal: same id, type, channel and payloads, with
binary bytes preserved verbatim and JSON values equal. -/
theorem parseMessage_serializeMessage (m : Message) (h : m.WellFormed) :
    parseMessage (serializeMessage m) = some m := by
  obtain ⟨hid, hty, hcl, hcnt, hps⟩ := h
  have hty' : m.type % 256 = m.type := Nat.mod_eq_of_lt hty
  have hcl' : m.channel.length % 256 = m.channel.length := Nat.mod_eq_of_lt (by omega)
  have hcnt' : m.payloads.length % 256 = m.payloads.length := Nat.mod_eq_of_lt (by omega)
  have hS : serializeMessage m
      = 221 :: 240 :: (writeUInt32BE m.id ++ [m.type] ++ [m.channel.length] ++ m.channel
          ++ [m.payloads.length]
          ++ bytesFlatten (m.payloads.map fun p => [p.type] ++ writeUIntBE3 p.toBuffer.length ++ p.toBuffer)) := by
    simp [serializeMessage, _getHeaderBuffer, _getPayloadBuffers, hty', hcl', hcnt']
  rw [hS]
  have hdr := _parseHeaderFromBuffer_append m.id m.type m.payloads.length m.channel
    (bytesFlatten (m.payloads.map fun p => [p.type] ++ writeUIntBE3 p.toBuffer.length ++ p.toBuffer))
    hid
  have hdropP : (221 :: 240 :: (writeUInt32BE m.id ++ [m.type] ++ [m.channel.length] ++ m.channel
          ++ [m.payloads.length]
          ++ bytesFlatten (m.payloads.map fun p => [p.type] ++ writeUIntBE3 p.toBuffer.length ++ p.toBuffer))).drop (2 + (7 + m.channel.length))
      = bytesFlatten (m.payloads.map fun p => [p.type] ++ writeUIntBE3 p.toBuffer.length ++ p.toBuffer) := by
    rw [Nat.add_comm 2 (7 + m.channel.length)]
    show (writeUInt32BE m.id ++ [m.type] ++ [m.channel.length] ++ m.channel
          ++ [m.payloads.length]
          ++ bytesFlatten (m.payloads.map fun p => [p.type] ++ writeUIntBE3 p.toBuffer.length ++ p.toBuffer)).drop (7 + m.channel.length)
        = bytesFlatten (m.payloads.map fun p => [p.type] ++ writeUIntBE3 p.toBuffer.length ++ p.toBuffer)
    refine List.drop_left' ?_
    simp [writeUInt32BE]
    omega
  have hloop := parsePayloadsLoop_of_encoded m.payloads
    (bytesFlatten (m.payloads.map fun p => [p.type] ++ writeUIntBE3 p.toBuffer.length ++ p.toBuffer))
    0 (List.drop_zero _) hps
  simp only [parseMessage, List.getElem?_cons_zero, List.getElem?_cons_succ,
    List.drop_succ_cons, List.drop_zero, and_self, if_true, hdr, hdropP,
    _parsePayloadsFromBuffer, hloop, Option.bind_eq_bind, Option.some_bind]
  rfl

/-- Concrete well-formed message exercising both payload kinds. -/
def exampleMessageC1 : Message :=
  ⟨7, MessageType.Event, [104, 105],
    [.binary [1, 2, 3], .json (.arr [.num 5, .str [104]]), .json (.obj [([97], .num (-2))])]⟩

/-- Witness for C1: the hypotheses hold and the round trip computes at a
concrete message. -/
theorem parseMessage_serializeMessage_witness :
    exampleMessageC1.WellFormed
      ∧ parseMessage (serializeMessage exampleMessageC1) = some exampleMessageC1 := by
  have hwf : exampleMessageC1.WellFormed := by
    refine ⟨by decide, by decide, by decide, by decide, ?_⟩
    intro p hp
    fin_cases hp
    · exact ⟨by decide, trivial⟩
    · exact ⟨by decide, rfl⟩
    · exact ⟨by decide, rfl⟩
  exact ⟨hwf, parseMessage_serializeMessage exampleMessageC1 hwf⟩

/-! ## Header layout (claim C3) -/

/-- Fully explicit form of `_parseHeaderFromBuffer` on a buffer whose sixth
byte equals the length of the channel segment that follows. -/
theorem _parseHeaderFromBuffer_cons (a0 a1 a2 a3 ty cl count : Nat) (channel P : Bytes)
    (hcl : channel.length = cl) :
    _parseHeaderFromBuffer (a0 :: a1 :: a2 :: a3 :: ty :: cl :: (channel ++ ([count] ++ P)))
      = some ⟨a0 * 16777216 + a1 * 65536 + a2 * 256 + a3, ty, channel, count, 7 + cl⟩ := by
  subst hcl
  have hcount : (channel ++ ([count] ++ P))[channel.length]? = some count := by
    rw [List.getElem?_append_right (Nat.le_refl _)]
    simp
  simp only [_parseHeaderFromBuffer, readUInt32BE, List.getElem?_cons_zero,
    List.getElem?_cons_succ, getElem?_cons6, hcount, Option.bind_eq_bind, Option.some_bind]
  rw [List.drop_succ_cons, List.drop_succ_cons, List.drop_succ_cons, List.drop_succ_cons,
    List.drop_succ_cons, List.drop_succ_cons, List.drop_zero, List.take_left]
  rfl

/-- Message used to refute the claimed `10 + channel_len` payload offset. -/
def exampleMessageC3 : Message :=
  ⟨1, MessageType.Event, [], [.binary [42]]⟩

/-- Counterexample to C3 as stated: with an empty channel, the bytes from
offset `10 + channel_len` of the serialization are not the payload section
(the payload section starts one byte earlier). -/
theorem headerOffset_claimed_counterexample :
    ¬ ((serializeMessage exampleMessageC3).drop (10 + exampleMessageC3.channel.length)
        = bytesFlatten (_getPayloadBuffers exampleMessageC3)) := by
  decide

/-- **C3 (amended).** The header up to the first payload occupies
`9 + channel_len` bytes (`2`-byte marker, `4`-byte id, `1`-byte type,
`1`-byte channel length, the channel, `1`-byte payload count), the payload
section starts at byte offset `9 + channel_len` of the wire form, and the
parser reads the first payload from that same offset
(`2 + payloadStartOffset = 9 + channel_len`). -/
theorem headerOffset_spec (m : Message) (h : m.channel.length ≤ 255) :
    (serializeMessage m).drop (9 + m.channel.length) = bytesFlatten (_getPayloadBuffers m)
      ∧ 2 + (_getHeaderBuffer m).length = 9 + m.channel.length
      ∧ ∃ hd, _parseHeaderFromBuffer ((serializeMessage m).drop 2) = some hd
          ∧ 2 + hd.payloadStartOffset = 9 + m.channel.length := by
  have hcl' : m.channel.length % 256 = m.channel.length := Nat.mod_eq_of_lt (by omega)
  refine ⟨?_, ?_, ?_⟩
  · have hsplit : serializeMessage m
        = ([221, 240] ++ _getHeaderBuffer m) ++ bytesFlatten (_getPayloadBuffers m) := by
      simp [serializeMessage, List.append_assoc]
    rw [hsplit]
    refine List.drop_left' ?_
    simp [_getHeaderBuffer, writeUInt32BE]
    omega
  · simp [_getHeaderBuffer, writeUInt32BE]
    omega
  · have hB : (serializeMessage m).drop 2
        = (m.id / 16777216 % 256) :: (m.id / 65536 % 256) :: (m.id / 256 % 256) :: (m.id % 256)
          :: (m.type % 256) :: m.channel.length
          :: (m.channel ++ ([m.payloads.length % 256] ++ bytesFlatten (_getPayloadBuffers m))) := by
      simp [serializeMessage, _getHeaderBuffer, writeUInt32BE, hcl']
    rw [hB, _parseHeaderFromBuffer_cons _ _ _ _ _ _ _ _ _ rfl]
    exact ⟨_, rfl, by show 2 + (7 + m.channel.length) = 9 + m.channel.length; omega⟩

/-- Witness for the amended C3 at a concrete message with a nonempty
channel. -/
theorem headerOffset_spec_witness :
    (serializeMessage exampleMessageC1).drop (9 + exampleMessageC1.channel.length)
        = bytesFlatten (_getPayloadBuffers exampleMessageC1)
      ∧ 2 + (_getHeaderBuffer exampleMessageC1).length = 9 + exampleMessageC1.channel.length
      ∧ ∃ hd, _parseHeaderFromBuffer ((serializeMessage exampleMessageC1).drop 2) = some hd
          ∧ 2 + hd.payloadStartOffset = 9 + exampleMessageC1.channel.length :=
  headerOffset_spec exampleMessageC1 (by decide)

end NetworkSerializer

/-! ## Insertion-ordered maps

JavaScript `Map` preserves insertion order: `set` on an existing key updates
the value in place, `delete` removes the entry, iteration visits entries in
insertion order. Modelled as association lists. -/

/-- `Map.get`. -/
def mapLookup {α : Type} (k : Nat) : List (Nat × α) → Option α
  | [] => none
  | (k', v) :: rest => if k' = k then some v else mapLookup k rest

/-- `Map.set`: replace in place if present, else append. -/
def mapSet {α : Type} (k : Nat) (v : α) : List (Nat × α) → List (Nat × α)
  | [] => [(k, v)]
  | (k', v') :: rest => if k' = k then (k, v) :: rest else (k', v') :: mapSet k v rest

/-- `Map.delete`. -/
def mapErase {α : Type} (k : Nat) : List (Nat × α) → List (Nat × α)
  | [] => []
  | (k', v') :: rest => if k' = k then rest else (k', v') :: mapErase k rest

/-- Membership in a key set (a `Map` whose values are irrelevant timer
handles is modelled as its insertion-ordered key list). -/
def keyMem (k : Nat) : List Nat → Bool
  | [] => false
  | k' :: rest => k' = k || keyMem k rest

/-- `Map.set` on a timer map: keep position if present, else append. -/
def keySet (k : Nat) (l : List Nat) : List Nat :=
  if keyMem k l then l else l ++ [k]

/-- `Map.delete` on a timer map. -/
def keyErase (k : Nat) : List Nat → List Nat
  | [] => []
  | k' :: rest => if k' = k then rest else k' :: keyErase k rest

/-! ## Completions (`PromiseCompletionSource`, `utilities/promises.ts`)

The promise-source utility itself is not under `src/`; the writer only uses
`isFinished`, `setResult` and `setError`, which are modelled as a settled /
pending state. `setResult(true)` for acks is `Json.bool true`. -/

inductive CompletionState where
  | pending : CompletionState
  | result (value : Json) : CompletionState
  | errored : CompletionState

/-- `PromiseCompletionSource.isFinished`. -/
def CompletionState.isFinished : CompletionState → Bool
  | .pending => false
  | _ => true

/-! ## The outgoing message register (`NetworkWriter`, `src/unnamed/part_001`)

Observable effects of writer operations (transport sends and `error`
events) are collected into an output list. Timer maps are keyed in the
source by the `Message` object; a writer never holds two distinct live
records with the same message object, so the model keys them by message
id. Firing of a scheduled timer is modelled as an explicit operation whose
body is the source callback's body. -/

inductive WriterError where
  | networkTimeout : WriterError

inductive WriterOutput where
  | transportSend (data : Bytes) : WriterOutput
  | errorEvent (e : WriterError) : WriterOutput

/-- `WriteOptions` of `NetworkWriter.queue`. -/
structure WriteOptions where
  ackTimeout : Nat
  operationTimeout : Option Nat

/-- The `OutgoingMessage` record held in the writer's buffer. -/
structure OutgoingMessage where
  message : Message
  acknowledged : Bool
  resolveOnAck : Bool
  sent : Bool
  source : CompletionState
  options : WriteOptions

structure NetworkWriter where
  _messages : List (Nat × OutgoingMessage)
  _ackTimeouts : List Nat
  _operationTimeouts : List Nat
  _connected : Bool

namespace NetworkWriter

/-- The freshly constructed writer. -/
def mk' : NetworkWriter :=
  ⟨[], [], [], false⟩

/-- `NetworkWriter.send`: fire-and-forget; serializes and forwards to the
transport when connected (returning `true`), otherwise does nothing. -/
def send (w : NetworkWriter) (message : Message) : Bool × List WriterOutput :=
  if w._connected then
    (true, [.transportSend (NetworkSerializer.serializeMessage message)])
  else
    (false, [])

/-- `NetworkWriter._setTimeouts`: starts the ack timer when
`ackTimeout > 0`, and the operation timer for requests with
`operationTimeout ?? 0 > 0`. (The model records which timers are live; the
firing of a timer is a separate operation.) -/
def _setTimeouts (w : NetworkWriter) (data : OutgoingMessage) : NetworkWriter :=
  let w :=
    if data.options.ackTimeout > 0 then
      { w with _ackTimeouts := keySet data.message.id w._ackTimeouts }
    else w
  if data.message.type = MessageType.Request ∧ (data.options.operationTimeout.getD 0) > 0 then
    { w with _operationTimeouts := keySet data.message.id w._operationTimeouts }
  else w

/-- `NetworkWriter._sendMessage`: when connected, marks the record sent and
unacknowledged, starts its timers, and forwards the serialized message to
the transport; when disconnected, does nothing. -/
def _sendMessage (w : NetworkWriter) (data : OutgoingMessage) : NetworkWriter × List WriterOutput :=
  if w._connected then
    let data' := { data with sent := true, acknowledged := false }
    let w := { w with _messages := mapSet data.message.id data' w._messages }
    let w := w._setTimeouts data'
    (w, [.transportSend (NetworkSerializer.serializeMessage data.message)])
  else
    (w, [])

/-- `NetworkWriter.queue`: inserts a fresh record (resolving on ack unless
the message is a request) and attempts to send it. -/
def queue (w : NetworkWriter) (message : Message) (options : WriteOptions) :
    NetworkWriter × List WriterOutput :=
  let data : OutgoingMessage :=
    { message, acknowledged := false, resolveOnAck := message.type ≠ MessageType.Request,
      sent := false, source := .pending, options }
  let w := { w with _messages := mapSet message.id data w._messages }
  _sendMessage w data

/-- `NetworkWriter._clearAllTimeouts`. -/
def _clearAllTimeouts (w : NetworkWriter) : NetworkWriter :=
  { w with _ackTimeouts := [], _operationTimeouts := [] }

/-- `NetworkWriter.setConnectionLost`: when connected, flip to disconnected
and cancel all timers; records are retained. -/
def setConnectionLost (w : NetworkWriter) : NetworkWriter :=
  if w._connected then
    { w._clearAllTimeouts with _connected := false }
  else
    w

/-- `NetworkWriter.setConnectionOpened`: when disconnected, flip to
connected and re-send every retained record with `!sent || isResumed`,
iterating the message map in insertion order. -/
def setConnectionOpened (w : NetworkWriter) (isResumed : Bool) : NetworkWriter × List WriterOutput :=
  if w._connected then
    (w, [])
  else
    let w := { w with _connected := true }
    w._messages.foldl
      (fun acc e =>
        if !e.2.sent || isResumed then
          ((_sendMessage acc.1 e.2).1, acc.2 ++ (_sendMessage acc.1 e.2).2)
        else acc)
      (w, [])

/-- `NetworkWriter.setConnectionClosed`: when connected, flip to
disconnected, cancel all timers and drop all records. -/
def setConnectionClosed (w : NetworkWriter) : NetworkWriter :=
  if w._connected then
    { w._clearAllTimeouts with _connected := false, _messages := [] }
  else
    w

/-- `NetworkWriter.setMessageAcknowledged`: if a record exists for `id` and
is unacknowledged, mark it acknowledged, clear its ack timer, and resolve
its completion when `resolveOnAck`. -/
def setMessageAcknowledged (w : NetworkWriter) (id : Nat) : NetworkWriter :=
  match mapLookup id w._messages with
  | some task =>
    if task.acknowledged then
      w
    else
      let newSource := if task.resolveOnAck then CompletionState.result (.bool true) else task.source
      let task' := { task with acknowledged := true, source := newSource }
      { w with _messages := mapSet id task' w._messages,
               _ackTimeouts := keyErase task.message.id w._ackTimeouts }
  | none => w

/-- `NetworkWriter.setMessageResponse`: delete the record and both timers
and resolve its completion with the response value. -/
def setMessageResponse (w : NetworkWriter) (id : Nat) (value : Json) :
    NetworkWriter × Option CompletionState :=
  match mapLookup id w._messages with
  | some task =>
    ({ w with _messages := mapErase id w._messages,
              _ackTimeouts := keyErase task.message.id w._ackTimeouts,
              _operationTimeouts := keyErase task.message.id w._operationTimeouts },
      some (.result value))
  | none => (w, none)

/-- The body of the ack-timeout callback scheduled by `_setTimeouts`
(`src/unnamed/part_001`, lines 152-160), as it executes when the timer
fires: if the record is still unacknowledged, delete the ack timer and emit
`error(NetworkTimeoutError)`. The record and its completion are untouched.
(The callback closes over the record object; the model reads it from the
map, which holds that same object while the record is live.) -/
def fireAckTimeout (w : NetworkWriter) (id : Nat) : NetworkWriter × List WriterOutput :=
  match mapLookup id w._messages with
  | some data =>
    if !data.acknowledged then
      ({ w with _ackTimeouts := keyErase id w._ackTimeouts },
        [.errorEvent .networkTimeout])
    else
      (w, [])
  | none => (w, [])

end NetworkWriter

/-! ## Map lemmas -/

theorem mapLookup_mapSet_self {α : Type} (k : Nat) (v : α) (l : List (Nat × α)) :
    mapLookup k (mapSet k v l) = some v := by
  induction l with
  | nil => simp [mapSet, mapLookup]
  | cons e rest ih =>
    obtain ⟨k', v'⟩ := e
    by_cases h : k' = k
    · simp [mapSet, mapLookup, h]
    · simp [mapSet, mapLookup, h, ih]

theorem mapSet_keys_of_mem {α : Type} (k : Nat) (v : α) (l : List (Nat × α))
    (h : k ∈ l.map Prod.fst) :
    (mapSet k v l).map Prod.fst = l.map Prod.fst := by
  induction l with
  | nil => simp at h
  | cons e rest ih =>
    obtain ⟨k', v'⟩ := e
    by_cases hk : k' = k
    · simp [mapSet, hk]
    · simp only [List.map_cons, List.mem_cons] at h
      rcases h with h | h
    
      · exact absurd h.symm hk
      · simp [mapSet, hk, ih h]

/-! ## Writer frame and idempotence lemmas -/

namespace NetworkWriter

theorem _setTimeouts_connected (w : NetworkWriter) (d : OutgoingMessage) :
    (w._setTimeouts d)._connected = w._connected := by
  unfold _setTimeouts
  split <;> split <;> rfl

theorem _setTimeouts_messages (w : NetworkWriter) (d : OutgoingMessage) :
    (w._setTimeouts d)._messages = w._messages := by
  unfold _setTimeouts
  split <;> split <;> rfl

theorem _sendMessage_connected (w : NetworkWriter) (d : OutgoingMessage) :
    (_sendMessage w d).1._connected = w._connected := by
  unfold _sendMessage
  split
  · rw [_setTimeouts_connected]
  · rfl

theorem _sendMessage_output (w : NetworkWriter) (d : OutgoingMessage) (h : w._connected = true) :
    (_sendMessage w d).2 = [.transportSend (NetworkSerializer.serializeMessage d.message)] := by
  unfold _sendMessage
  rw [h]
  rfl

theorem _sendMessage_keys (w : NetworkWriter) (d : OutgoingMessage)
    (h : d.message.id ∈ w._messages.map Prod.fst) :
    (_sendMessage w d).1._messages.map Prod.fst = w._messages.map Prod.fst := by
  unfold _sendMessage
  split
  · rw [_setTimeouts_messages]
    exact mapSet_keys_of_mem _ _ _ h
  · rfl

theorem setMessageAcknowledged_of_none {w : NetworkWriter} {id : Nat}
    (hl : mapLookup id w._messages = none) :
    setMessageAcknowledged w id = w := by
  unfold setMessageAcknowledged
  rw [hl]

theorem setMessageAcknowledged_of_acked {w : NetworkWriter} {id : Nat} {task : OutgoingMessage}
    (hl : mapLookup id w._messages = some task) (h : task.acknowledged = true) :
    setMessageAcknowledged w id = w := by
  unfold setMessageAcknowledged
  rw [hl]
  simp [h]

/-- **C6.** Re-acknowledging is idempotent: a second
`setMessageAcknowledged(id)` leaves the writer's entire state (message map,
timer maps, record flags, completion states) unchanged, so the completion is
not resolved a second time. -/
theorem setMessageAcknowledged_idem (w : NetworkWriter) (id : Nat) :
    setMessageAcknowledged (setMessageAcknowledged w id) id = setMessageAcknowledged w id := by
  cases hl : mapLookup id w._messages with
  | none =>
    rw [setMessageAcknowledged_of_none hl, setMessageAcknowledged_of_none hl]
  | some task =>
    by_cases hack : task.acknowledged = true
    · rw [setMessageAcknowledged_of_acked hl hack, setMessageAcknowledged_of_acked hl hack]
    · have h1 : setMessageAcknowledged w id
          = { w with
              _messages := mapSet id
                { task with
                  acknowledged := true
                  source := if task.resolveOnAck then CompletionState.result (.bool true)
                            else task.source } w._messages
              _ackTimeouts := keyErase task.message.id w._ackTimeouts } := by
        unfold setMessageAcknowledged
        rw [hl]
        simp [hack]
      rw [h1]
      exact setMessageAcknowledged_of_acked (mapLookup_mapSet_self _ _ _) rfl

/-- **C5.** When an ack timer fires for a still-unacknowledged queued
message, the writer emits `error(NetworkTimeoutError)` and deletes the ack
timer, and nothing else changes: the record stays in the message map (with
its completion state untouched, so the completion is neither removed nor
rejected by the ack timer) and the operation timers are untouched. -/
theorem fireAckTimeout_spec (w : NetworkWriter) (id : Nat) (data : OutgoingMessage)
    (hl : mapLookup id w._messages = some data)
    (hack : data.acknowledged = false)
    (_htimer : keyMem id w._ackTimeouts = true) :
    fireAckTimeout w id
        = ({ w with _ackTimeouts := keyErase id w._ackTimeouts },
           [.errorEvent .networkTimeout])
      ∧ (fireAckTimeout w id).1._messages = w._messages
      ∧ (fireAckTimeout w id).1._operationTimeouts = w._operationTimeouts
      ∧ mapLookup id (fireAckTimeout w id).1._messages = some data := by
  have h1 : fireAckTimeout w id
      = ({ w with _ackTimeouts := keyErase id w._ackTimeouts },
         [.errorEvent .networkTimeout]) := by
    unfold fireAckTimeout
    rw [hl]
    simp [hack]
  exact ⟨h1, by rw [h1], by rw [h1], by rw [h1]; exact hl⟩

/-- **C10.** `setConnectionClosed` is a no-op when the writer is already
disconnected; in particular, after `setConnectionLost` has flipped the
writer to disconnected, a subsequent `setConnectionClosed` changes nothing
(retained records are not dropped). -/
theorem setConnectionClosed_disconnected_noop (w : NetworkWriter) :
    (w._connected = false → setConnectionClosed w = w)
      ∧ setConnectionClosed (setConnectionLost w) = setConnectionLost w := by
  constructor
  · intro h
    unfold setConnectionClosed
    rw [h]
    rfl
  · by_cases h : w._connected
    · have hlost : setConnectionLost w = { w._clearAllTimeouts with _connected := false } := by
        unfold setConnectionLost
        rw [h]
        rfl
      rw [hlost]
      unfold setConnectionClosed
      rfl
    · have h' : w._connected = false := by simpa using h
      have hlost : setConnectionLost w = w := by
        unfold setConnectionLost
        rw [h']
        rfl
      rw [hlost]
      unfold setConnectionClosed
      rw [h']
      rfl

end NetworkWriter

/-! ## Resend-on-open (claim C9) -/

namespace NetworkWriter

theorem setConnectionOpened_foldl (isResumed : Bool) (l : List (Nat × OutgoingMessage)) :
    ∀ (w0 : NetworkWriter) (outs : List WriterOutput),
      w0._connected = true →
      (∀ e ∈ l, e.2.message.id ∈ w0._messages.map Prod.fst) →
      (l.foldl
          (fun acc e =>
            if !e.2.sent || isResumed then
              ((_sendMessage acc.1 e.2).1, acc.2 ++ (_sendMessage acc.1 e.2).2)
            else acc)
          (w0, outs)).2
        = outs ++ (l.filter fun e => !e.2.sent || isResumed).map
            (fun e => WriterOutput.transportSend (NetworkSerializer.serializeMessage e.2.message))
      ∧ (l.foldl
          (fun acc e =>
            if !e.2.sent || isResumed then
              ((_sendMessage acc.1 e.2).1, acc.2 ++ (_sendMessage acc.1 e.2).2)
            else acc)
          (w0, outs)).1._connected = true
      ∧ (l.foldl
          (fun acc e =>
            if !e.2.sent || isResumed then
              ((_sendMessage acc.1 e.2).1, acc.2 ++ (_sendMessage acc.1 e.2).2)
            else acc)
          (w0, outs)).1._messages.map Prod.fst = w0._messages.map Prod.fst := by
  induction l with
  | nil => intro w0 outs hconn _; exact ⟨by simp, hconn, rfl⟩
  | cons e rest ih =>
    intro w0 outs hconn hmem
    by_cases hsend : (!e.2.sent || isResumed) = true
    · have hkeys : (_sendMessage w0 e.2).1._messages.map Prod.fst = w0._messages.map Prod.fst :=
        _sendMessage_keys w0 e.2 (hmem e (List.mem_cons_self _ _))
      have hconn' : (_sendMessage w0 e.2).1._connected = true := by
        rw [_sendMessage_connected]; exact hconn
      have hmem' : ∀ x ∈ rest, x.2.message.id ∈ (_sendMessage w0 e.2).1._messages.map Prod.fst := by
        intro x hx
        rw [hkeys]
        exact hmem x (List.mem_cons_of_mem _ hx)
      have step := ih (_sendMessage w0 e.2).1
        (outs ++ (_sendMessage w0 e.2).2) hconn' hmem'
      refine ⟨?_, ?_, ?_⟩
      · rw [List.foldl_cons, if_pos hsend, step.1, _sendMessage_output w0 e.2 hconn]
        simp [List.filter_cons, hsend]
      · rw [List.foldl_cons, if_pos hsend]
        exact step.2.1
      · rw [List.foldl_cons, if_pos hsend, step.2.2, hkeys]
    · have hsend' : (!e.2.sent || isResumed) = false := by simpa using hsend
      have step := ih w0 outs hconn (fun x hx => hmem x (List.mem_cons_of_mem _ hx))
      refine ⟨?_, ?_, ?_⟩
      · rw [List.foldl_cons, if_neg hsend, step.1]
        simp [List.filter_cons, hsend']
      · rw [List.foldl_cons, if_neg hsend]
        exact step.2.1
      · rw [List.foldl_cons, if_neg hsend]
        exact step.2.2

/-- **C9.** `setConnectionOpened(isResumed)` on a disconnected writer flips
to connected and sends exactly the retained records with `!sent ||
isResumed`, iterating the message map in insertion order (so in ascending
id order when the map keys are sorted, which id assignment guarantees);
records with `sent = true` are not resent on a non-resumed open; on an
already-connected writer nothing is sent and nothing changes. -/
theorem setConnectionOpened_spec (w : NetworkWriter) (isResumed : Bool)
    (hids : ∀ e ∈ w._messages, e.2.message.id = e.1) :
    ((setConnectionOpened w isResumed).2
        = if w._connected then []
          else (w._messages.filter fun e => !e.2.sent || isResumed).map
              (fun e => WriterOutput.transportSend (NetworkSerializer.serializeMessage e.2.message)))
      ∧ (setConnectionOpened w isResumed).1._connected = true
      ∧ (setConnectionOpened w isResumed).1._messages.map Prod.fst = w._messages.map Prod.fst
      ∧ (List.Pairwise (· < ·) (w._messages.map Prod.fst) →
          List.Pairwise (· < ·)
            ((w._messages.filter fun e => !e.2.sent || isResumed).map Prod.fst)) := by
  have horder : List.Pairwise (· < ·) (w._messages.map Prod.fst) →
      List.Pairwise (· < ·) ((w._messages.filter fun e => !e.2.sent || isResumed).map Prod.fst) := by
    intro hp
    rw [List.pairwise_map] at hp ⊢
    exact hp.sublist (List.filter_sublist _)
  by_cases hconn : w._connected
  · have heq : setConnectionOpened w isResumed = (w, []) := by
      unfold setConnectionOpened
      rw [hconn]
      rfl
    rw [heq]
    exact ⟨by simp [hconn], hconn, rfl, horder⟩
  · have hconn' : w._connected = false := by simpa using hconn
    have hmem : ∀ e ∈ w._messages,
        e.2.message.id ∈ ({ w with _connected := true } : NetworkWriter)._messages.map Prod.fst := by
      intro e he
      rw [hids e he]
      exact List.mem_map_of_mem Prod.fst he
    have hfold := setConnectionOpened_foldl isResumed w._messages
      { w with _connected := true } [] rfl hmem
    have hrun : setConnectionOpened w isResumed
        = w._messages.foldl
            (fun acc e =>
              if !e.2.sent || isResumed then
                ((_sendMessage acc.1 e.2).1, acc.2 ++ (_sendMessage acc.1 e.2).2)
              else acc)
            ({ w with _connected := true }, []) := by
      unfold setConnectionOpened
      rw [hconn']
      rfl
    rw [hrun]
    refine ⟨?_, hfold.2.1, hfold.2.2, horder⟩
    rw [hfold.1, hconn']
    simp

end NetworkWriter

/-! ## Concrete writer states for witnesses -/

def exampleOutgoing : OutgoingMessage :=
  { message := ⟨3, MessageType.Event, [101], []⟩, acknowledged := false, resolveOnAck := true,
    sent := true, source := .pending, options := ⟨15000, none⟩ }

/-- Connected writer holding one unacknowledged record with a live ack
timer. -/
def exampleWriterAck : NetworkWriter :=
  ⟨[(3, exampleOutgoing)], [3], [], true⟩

/-- Disconnected writer retaining one already-sent and one unsent record
(ids in insertion order). -/
def exampleWriterRetained : NetworkWriter :=
  ⟨[(1, { message := ⟨1, MessageType.Event, [97], []⟩, acknowledged := false, resolveOnAck := true,
          sent := true, source := .pending, options := ⟨15000, none⟩ }),
    (2, { message := ⟨2, MessageType.Event, [98], []⟩, acknowledged := false, resolveOnAck := true,
          sent := false, source := .pending, options := ⟨15000, none⟩ })],
   [], [], false⟩

namespace NetworkWriter

/-- Witness for C5 at a concrete writer state. -/
theorem fireAckTimeout_spec_witness :
    mapLookup 3 exampleWriterAck._messages = some exampleOutgoing
      ∧ exampleOutgoing.acknowledged = false
      ∧ keyMem 3 exampleWriterAck._ackTimeouts = true
      ∧ (fireAckTimeout exampleWriterAck 3).1._messages = exampleWriterAck._messages
      ∧ (fireAckTimeout exampleWriterAck 3).2 = [.errorEvent .networkTimeout] := by
  have h := fireAckTimeout_spec exampleWriterAck 3 exampleOutgoing rfl rfl rfl
  exact ⟨rfl, rfl, rfl, h.2.1, by rw [h.1]⟩

/-- Witness for C9 at a concrete disconnected writer: only the unsent
record is resent on a non-resumed open, and the resent ids are ascending. -/
theorem setConnectionOpened_spec_witness :
    (∀ e ∈ exampleWriterRetained._messages, e.2.message.id = e.1)
      ∧ ((setConnectionOpened exampleWriterRetained false).2
          = if exampleWriterRetained._connected then []
            else (exampleWriterRetained._messages.filter fun e => !e.2.sent || false).map
                (fun e => WriterOutput.transportSend (NetworkSerializer.serializeMessage e.2.message)))
      ∧ List.Pairwise (· < ·)
          ((exampleWriterRetained._messages.filter fun e => !e.2.sent || false).map Prod.fst) := by
  have h := setConnectionOpened_spec exampleWriterRetained false (by decide)
  exact ⟨by decide, h.1, h.2.2.2 (by decide)⟩

/-- Witness for C10: `setConnectionClosed` at a concrete disconnected
writer retaining records changes nothing. -/
theorem setConnectionClosed_disconnected_noop_witness :
    exampleWriterRetained._connected = false
      ∧ setConnectionClosed exampleWriterRetained = exampleWriterRetained :=
  ⟨rfl, (setConnectionClosed_disconnected_noop exampleWriterRetained).1 rfl⟩

end NetworkWriter

/-! ## The incremental reader (`NetworkReader`,
`src/packages/common/src/classes/network/NetworkReader.ts`)

The reader's `_parseData` routine is an `async` loop that requests fixed
numbers of bytes (`_getBytes`) and suspends when the queue does not hold
enough. Between two external events the connection's event loop runs the
routine to quiescence, so the routine is modelled as a state machine whose
states (`ParsePhase`) are its suspension points, together with the byte
queue. A step consumes exactly the requested bytes and runs the code
between two `await`s of the source. -/

inductive ReaderEvent where
  | message (m : Message) : ReaderEvent
  | error (info : Bytes) : ReaderEvent

/-- Suspension points of `NetworkReader._parseData`: waiting for the 2
marker bytes, the 6 header bytes, the `1 + channelLength` channel/count
bytes, a payload's 4 head bytes, or a payload's `size` data bytes. The top
of the loop and the not-currently-parsing state are both `needMark`: in
either case the next bytes to be consumed are a marker. -/
inductive ParsePhase where
  | needMark : ParsePhase
  | needHeader : ParsePhase
  | needChannel (id ty chanLen : Nat) : ParsePhase
  | needPayloadHead (id ty : Nat) (channel : Bytes) (acc : List MessagePayload) (remaining : Nat) : ParsePhase
  | needPayloadData (id ty : Nat) (channel : Bytes) (acc : List MessagePayload) (remaining : Nat)
      (ptype size : Nat) : ParsePhase

/-- The byte count of the pending `_getBytes` request of a phase. -/
def phaseNeed : ParsePhase → Nat
  | .needMark => 2
  | .needHeader => 6
  | .needChannel _ _ len => 1 + len
  | .needPayloadHead _ _ _ _ _ => 4
  | .needPayloadData _ _ _ _ _ _ size => size

/-- One step of `_parseData`, applied to the bytes the phase requested
(reads within an already-consumed buffer use `getD`; each branch only
indexes below the requested length). A bad marker or a failing
`MessagePayload.from` throws in the source, is caught, emits `error`, and
the loop restarts at the marker. -/
def readerStep : ParsePhase → Bytes → ParsePhase × List ReaderEvent
  | .needMark, bytes =>
    if bytes.getD 0 0 = 221 ∧ bytes.getD 1 0 = 240 then (.needHeader, [])
    else (.needMark, [.error bytes])
  | .needHeader, bytes =>
    (.needChannel
      (bytes.getD 0 0 * 16777216 + bytes.getD 1 0 * 65536 + bytes.getD 2 0 * 256 + bytes.getD 3 0)
      (bytes.getD 4 0) (bytes.getD 5 0), [])
  | .needChannel id ty len, bytes =>
    let channel := bytes.take len
    let count := bytes.getD len 0
    if count = 0 then (.needMark, [.message ⟨id, ty, channel, []⟩])
    else (.needPayloadHead id ty channel [] count, [])
  | .needPayloadHead id ty ch acc rem, bytes =>
    (.needPayloadData id ty ch acc rem (bytes.getD 0 0)
      (bytes.getD 1 0 * 65536 + bytes.getD 2 0 * 256 + bytes.getD 3 0), [])
  | .needPayloadData id ty ch acc rem ptype _, bytes =>
    match MessagePayload.from' ptype bytes with
    | none => (.needMark, [.error bytes])
    | some p =>
      if rem ≤ 1 then (.needMark, [.message ⟨id, ty, ch, acc ++ [p]⟩])
      else (.needPayloadHead id ty ch (acc ++ [p]) (rem - 1), [])

/-- Only a zero-size payload-data request consumes no bytes; it counts one
extra unit in the parse-loop termination measure. -/
def phaseRank : ParsePhase → Nat
  | .needPayloadData _ _ _ _ _ _ 0 => 1
  | _ => 0

theorem phaseRank_le_one (ph : ParsePhase) : phaseRank ph ≤ 1 := by
  cases ph with
  | needPayloadData id ty ch acc rem ptype size => cases size <;> simp [phaseRank]
  | _ => simp [phaseRank]

theorem phaseNeed_zero (ph : ParsePhase) (h : phaseNeed ph = 0) :
    phaseRank ph = 1 ∧ ∀ bytes, phaseRank (readerStep ph bytes).1 = 0 := by
  cases ph with
  | needMark => simp [phaseNeed] at h
  | needHeader => simp [phaseNeed] at h
  | needChannel id ty len => simp [phaseNeed] at h
  | needPayloadHead id ty ch acc rem => simp [phaseNeed] at h
  | needPayloadData id ty ch acc rem ptype size =>
    cases size with
    | succ n => simp [phaseNeed] at h
    | zero =>
      refine ⟨rfl, fun bytes => ?_⟩
      simp only [readerStep]
      cases MessagePayload.from' ptype bytes with
      | none => rfl
      | some p => by_cases h1 : rem ≤ 1 <;> simp [h1, phaseRank]

theorem parseLoop_measure (ph : ParsePhase) (buf : Bytes) (h : phaseNeed ph ≤ buf.length) :
    2 * (buf.drop (phaseNeed ph)).length
        + phaseRank (readerStep ph (buf.take (phaseNeed ph))).1
      < 2 * buf.length + phaseRank ph := by
  rw [List.length_drop]
  by_cases h0 : phaseNeed ph = 0
  · obtain ⟨h1, h2⟩ := phaseNeed_zero ph h0
    rw [h0, h1, h2]
    omega
  · have := phaseRank_le_one (readerStep ph (buf.take (phaseNeed ph))).1
    omega

/-- The parse loop over an already-flattened byte buffer: repeatedly
consume the phase's requested bytes and step, until the buffer no longer
holds enough; returns the final phase, the unconsumed bytes and the emitted
events. This is the abstract view of `_parseData` against which the
chunked byte queue is proved equivalent. -/
def parseLoop (ph : ParsePhase) (buf : Bytes) : ParsePhase × Bytes × List ReaderEvent :=
  if h : phaseNeed ph ≤ buf.length then
    let s := readerStep ph (buf.take (phaseNeed ph))
    let r := parseLoop s.1 (buf.drop (phaseNeed ph))
    (r.1, r.2.1, s.2 ++ r.2.2)
  else
    (ph, buf, [])
termination_by 2 * buf.length + phaseRank ph
decreasing_by exact parseLoop_measure ph buf h

theorem parseLoop_stuck (ph : ParsePhase) (buf : Bytes) (h : ¬ phaseNeed ph ≤ buf.length) :
    parseLoop ph buf = (ph, buf, []) := by
  rw [parseLoop]
  simp [h]

theorem parseLoop_step (ph : ParsePhase) (buf : Bytes) (h : phaseNeed ph ≤ buf.length) :
    parseLoop ph buf
      = ((parseLoop (readerStep ph (buf.take (phaseNeed ph))).1 (buf.drop (phaseNeed ph))).1,
         (parseLoop (readerStep ph (buf.take (phaseNeed ph))).1 (buf.drop (phaseNeed ph))).2.1,
         (readerStep ph (buf.take (phaseNeed ph))).2
           ++ (parseLoop (readerStep ph (buf.take (phaseNeed ph))).1 (buf.drop (phaseNeed ph))).2.2) := by
  rw [parseLoop]
  simp [h]

/-- After the loop rests, the remaining buffer cannot satisfy the pending
request. -/
theorem parseLoop_post : ∀ (n : Nat) (ph : ParsePhase) (buf : Bytes),
    2 * buf.length + phaseRank ph ≤ n →
    ¬ phaseNeed (parseLoop ph buf).1 ≤ (parseLoop ph buf).2.1.length := by
  intro n
  induction n with
  | zero =>
    intro ph buf hm
    have h2 : ¬ phaseNeed ph ≤ buf.length := by
      cases ph with
      | needPayloadData id ty ch acc rem ptype size =>
        cases size with
        | zero => simp [phaseRank] at hm
        | succ k => simp [phaseNeed]; omega
      | _ => simp [phaseNeed] <;> omega
    rw [parseLoop_stuck ph buf h2]
    exact h2
  | succ n ih =>
    intro ph buf hm
    by_cases h : phaseNeed ph ≤ buf.length
    · rw [parseLoop_step ph buf h]
      have hlt := parseLoop_measure ph buf h
      exact ih _ _ (by omega)
    · rw [parseLoop_stuck ph buf h]
      exact h

/-- Incrementality of the abstract parse loop: appending more bytes first
replays the run on the old buffer, then continues from its resting state on
the leftover plus the new bytes. -/
theorem parseLoop_append : ∀ (n : Nat) (ph : ParsePhase) (buf extra : Bytes),
    2 * buf.length + phaseRank ph ≤ n →
    parseLoop ph (buf ++ extra)
      = ((parseLoop (parseLoop ph buf).1 ((parseLoop ph buf).2.1 ++ extra)).1,
         (parseLoop (parseLoop ph buf).1 ((parseLoop ph buf).2.1 ++ extra)).2.1,
         (parseLoop ph buf).2.2
           ++ (parseLoop (parseLoop ph buf).1 ((parseLoop ph buf).2.1 ++ extra)).2.2) := by
  intro n
  induction n with
  | zero =>
    intro ph buf extra hm
    have h2 : ¬ phaseNeed ph ≤ buf.length := by
      cases ph with
      | needPayloadData id ty ch acc rem ptype size =>
        cases size with
        | zero => simp [phaseRank] at hm
        | succ k => simp [phaseNeed]; omega
      | _ => simp [phaseNeed] <;> omega
    rw [parseLoop_stuck ph buf h2]
    simp
  | succ n ih =>
    intro ph buf extra hm
    by_cases h : phaseNeed ph ≤ buf.length
    · have htake : (buf ++ extra).take (phaseNeed ph) = buf.take (phaseNeed ph) :=
        List.take_append_of_le_length h
      have hdrop : (buf ++ extra).drop (phaseNeed ph) = buf.drop (phaseNeed ph) ++ extra :=
        List.drop_append_of_le_length h
      have hlen : phaseNeed ph ≤ (buf ++ extra).length := by
        rw [List.length_append]; omega
      rw [parseLoop_step ph (buf ++ extra) hlen, htake, hdrop, parseLoop_step ph buf h]
      have hlt := parseLoop_measure ph buf h
      rw [ih (readerStep ph (buf.take (phaseNeed ph))).1 (buf.drop (phaseNeed ph)) extra (by omega)]
      simp
    · rw [parseLoop_stuck ph buf h]
      simp

/-- `NetworkReader._consumeBytes`' loop: takes `length` bytes off the front
of the buffer queue, crossing buffer boundaries; returns the consumed bytes
and the updated queue and head offset, or `none` when the queue runs dry
(where the source's guard throws). The source computes
`headBytesToTake = min(available, needed)`: when the head holds strictly
more than needed it takes `needed` bytes and advances the offset; otherwise
it takes the whole remainder of the head (`headBytesRemaining = 0`),
removes the head, resets the offset, and continues. -/
def _consumeBytes : List Bytes → Nat → Nat → Option (Bytes × List Bytes × Nat)
  | queue, headOffset, 0 => some ([], queue, headOffset)
  | [], _, _ + 1 => none
  | head :: rest, headOffset, n + 1 =>
    if head.length - headOffset > n + 1 then
      some ((head.drop headOffset).take (n + 1), head :: rest, headOffset + (n + 1))
    else
      match _consumeBytes rest 0 (n + 1 - (head.length - headOffset)) with
      | some (more, q, o) =>
        some ((head.drop headOffset).take (head.length - headOffset) ++ more, q, o)
      | none => none

/-- Well-formedness of the reader's queue bookkeeping: `_queueLength` plus
the head offset equals the total queued bytes, and the offset points inside
the head buffer (it is `0` when the queue is empty). -/
def ReaderQueueInv (queue : List Bytes) (headOffset queueLength : Nat) : Prop :=
  queueLength + headOffset = (bytesFlatten queue).length
    ∧ match queue with
      | [] => headOffset = 0
      | head :: _ => headOffset ≤ head.length

theorem _consumeBytes_spec : ∀ (queue : List Bytes) (headOffset n queueLength : Nat),
    ReaderQueueInv queue headOffset queueLength → n ≤ queueLength →
    ∃ q' off',
      _consumeBytes queue headOffset n
          = some (((bytesFlatten queue).drop headOffset).take n, q', off')
        ∧ (bytesFlatten q').drop off' = ((bytesFlatten queue).drop headOffset).drop n
        ∧ ReaderQueueInv q' off' (queueLength - n) := by
  intro queue
  induction queue with
  | nil =>
    intro off n qlen hinv hn
    obtain ⟨hlen, hoff⟩ := hinv
    simp only [bytesFlatten, List.length_nil] at hlen
    have hn0 : n = 0 := by omega
    subst hn0
    exact ⟨[], off, rfl, rfl, hlen, hoff⟩
  | cons head rest ih =>
    intro off n qlen hinv hn
    obtain ⟨hlen, hoff⟩ := hinv
    simp only at hoff
    have hflat : bytesFlatten (head :: rest) = head ++ bytesFlatten rest := rfl
    have hdropflat : (bytesFlatten (head :: rest)).drop off = head.drop off ++ bytesFlatten rest := by
      rw [hflat, List.drop_append_of_le_length hoff]
    have hlenflat : (bytesFlatten (head :: rest)).length
        = head.length + (bytesFlatten rest).length := by
      rw [hflat, List.length_append]
    cases n with
    | zero => exact ⟨head :: rest, off, rfl, rfl, hlen, hoff⟩
    | succ m =>
      by_cases hbig : head.length - off > m + 1
      · refine ⟨head :: rest, off + (m + 1), ?_, ?_, ?_, ?_⟩
        · show _consumeBytes (head :: rest) off (m + 1) = _
          simp only [_consumeBytes]
          rw [if_pos hbig, hdropflat,
            List.take_append_of_le_length (by rw [List.length_drop]; omega)]
        · show (bytesFlatten (head :: rest)).drop (off + (m + 1))
              = ((bytesFlatten (head :: rest)).drop off).drop (m + 1)
          rw [List.drop_drop]
        · show qlen - (m + 1) + (off + (m + 1)) = (bytesFlatten (head :: rest)).length
          omega
        · show off + (m + 1) ≤ head.length
          omega
      · have havail : head.length - off ≤ m + 1 := by omega
        have hinv' : ReaderQueueInv rest 0 (qlen - (head.length - off)) := by
          refine ⟨by omega, ?_⟩
          cases rest with
          | nil => rfl
          | cons b t => exact Nat.zero_le _
        obtain ⟨q', off', heq, hflat', hinv''⟩ :=
          ih 0 (m + 1 - (head.length - off)) (qlen - (head.length - off)) hinv' (by omega)
        rw [List.drop_zero] at heq hflat'
        refine ⟨q', off', ?_, ?_, ?_⟩
        · show _consumeBytes (head :: rest) off (m + 1) = _
          simp only [_consumeBytes]
          rw [if_neg hbig]
          simp only [heq]
          have htk : (head.drop off).take (head.length - off) = head.drop off :=
            List.take_of_length_le (by rw [List.length_drop])
          rw [htk, hdropflat, List.take_append_eq_append_take, List.length_drop,
            List.take_of_length_le
              (show (head.drop off).length ≤ m + 1 by rw [List.length_drop]; omega)]
        · show (bytesFlatten q').drop off' = ((bytesFlatten (head :: rest)).drop off).drop (m + 1)
          rw [hflat', hdropflat, List.drop_append_eq_append_drop, List.length_drop,
            List.drop_of_length_le
              (show (head.drop off).length ≤ m + 1 by rw [List.length_drop]; omega)]
          simp
        · have harith : qlen - (head.length - off) - (m + 1 - (head.length - off))
              = qlen - (m + 1) := by omega
          rwa [harith] at hinv''

structure NetworkReader where
  _queue : List Bytes
  _queueLength : Nat
  _queueHeadOffset : Nat
  phase : ParsePhase

namespace NetworkReader

/-- The freshly constructed reader: empty queue, at the top of the parse
loop. -/
def mk' : NetworkReader :=
  ⟨[], 0, 0, .needMark⟩

/-- The unconsumed byte stream buffered by the reader. -/
def flatR (r : NetworkReader) : Bytes :=
  (bytesFlatten r._queue).drop r._queueHeadOffset

/-- Queue bookkeeping invariant, lifted to the reader. -/
def Inv (r : NetworkReader) : Prop :=
  ReaderQueueInv r._queue r._queueHeadOffset r._queueLength

/-- `NetworkReader._parseData` run to quiescence: while the queue holds the
bytes of the phase's pending request, consume them and step; stop when it
does not. `fuel` bounds the iteration count; `write` supplies enough for
the loop to reach quiescence. -/
def _parseData : Nat → NetworkReader → NetworkReader × List ReaderEvent
  | 0, r => (r, [])
  | fuel + 1, r =>
    if phaseNeed r.phase ≤ r._queueLength then
      match _consumeBytes r._queue r._queueHeadOffset (phaseNeed r.phase) with
      | some (data, q', off') =>
        let s := readerStep r.phase data
        let rec' := _parseData fuel ⟨q', r._queueLength - phaseNeed r.phase, off', s.1⟩
        (rec'.1, s.2 ++ rec'.2)
      | none => (r, [])
    else
      (r, [])

/-- `NetworkReader.write`: append the chunk to the queue, add its length to
the byte count, and run the parse routine to quiescence (fulfilling the
pending byte request and any subsequent ones that the buffered bytes can
satisfy), collecting the emitted events. -/
def write (r : NetworkReader) (bytes : Bytes) : NetworkReader × List ReaderEvent :=
  let r' : NetworkReader :=
    ⟨r._queue ++ [bytes], r._queueLength + bytes.length, r._queueHeadOffset, r.phase⟩
  _parseData (2 * r'._queueLength + 2) r'

/-- `NetworkReader.clear`: discard the buffered queue, reset the byte count
and head offset, drop the pending consume request and bump the routine
generation — abandoning any suspended parse, so the next write parses from
the top of the loop. The resulting state is exactly a fresh reader. -/
def clear (_ : NetworkReader) : NetworkReader :=
  ⟨[], 0, 0, .needMark⟩

/-- Sequential writes, concatenating the emitted events. -/
def writeAll (r : NetworkReader) : List Bytes → NetworkReader × List ReaderEvent
  | [] => (r, [])
  | c :: rest =>
    let w := write r c
    let ws := writeAll w.1 rest
    (ws.1, w.2 ++ ws.2)

/-- The concrete parse routine simulates the abstract `parseLoop` on the
flattened buffered bytes, given sufficient fuel. -/
theorem _parseData_sim : ∀ (fuel : Nat) (r : NetworkReader),
    Inv r → 2 * r._queueLength + phaseRank r.phase < fuel →
    (_parseData fuel r).2 = (parseLoop r.phase (flatR r)).2.2
      ∧ (_parseData fuel r).1.phase = (parseLoop r.phase (flatR r)).1
      ∧ flatR (_parseData fuel r).1 = (parseLoop r.phase (flatR r)).2.1
      ∧ Inv (_parseData fuel r).1 := by
  intro fuel
  induction fuel with
  | zero => intro r _ hm; omega
  | succ fuel ih =>
    intro r hinv hm
    have hflatlen : (flatR r).length = r._queueLength := by
      obtain ⟨hlen, _⟩ := hinv
      unfold flatR
      rw [List.length_drop]
      omega
    by_cases h : phaseNeed r.phase ≤ r._queueLength
    · obtain ⟨q', off', heq, hdrop, hinv'⟩ :=
        _consumeBytes_spec r._queue r._queueHeadOffset (phaseNeed r.phase) r._queueLength hinv h
      have hstep : _parseData (fuel + 1) r
          = ((_parseData fuel ⟨q', r._queueLength - phaseNeed r.phase, off',
                (readerStep r.phase ((flatR r).take (phaseNeed r.phase))).1⟩).1,
             (readerStep r.phase ((flatR r).take (phaseNeed r.phase))).2
               ++ (_parseData fuel ⟨q', r._queueLength - phaseNeed r.phase, off',
                    (readerStep r.phase ((flatR r).take (phaseNeed r.phase))).1⟩).2) := by
        show (if phaseNeed r.phase ≤ r._queueLength then _ else _) = _
        rw [if_pos h, heq]
        rfl
      set r2 : NetworkReader :=
        ⟨q', r._queueLength - phaseNeed r.phase, off',
          (readerStep r.phase ((flatR r).take (phaseNeed r.phase))).1⟩ with hr2
      have hinv2 : Inv r2 := hinv'
      have hflat2 : flatR r2 = (flatR r).drop (phaseNeed r.phase) := hdrop
      have habs : phaseNeed r.phase ≤ (flatR r).length := by omega
      have hmeas := parseLoop_measure r.phase (flatR r) habs
      have hm2 : 2 * r2._queueLength + phaseRank r2.phase < fuel := by
        have h1 : r2._queueLength = r._queueLength - phaseNeed r.phase := rfl
        have h2 : r2.phase = (readerStep r.phase ((flatR r).take (phaseNeed r.phase))).1 := rfl
        rw [h1, h2]
        rw [List.length_drop, hflatlen] at hmeas
        omega
      have hrec := ih r2 hinv2 hm2
      rw [hstep, parseLoop_step r.phase (flatR r) habs]
      rw [hflat2] at hrec
      exact ⟨by rw [hrec.1], hrec.2.1, hrec.2.2.1, hrec.2.2.2⟩
    · have habs : ¬ phaseNeed r.phase ≤ (flatR r).length := by omega
      have hstep : _parseData (fuel + 1) r = (r, []) := by
        show (if phaseNeed r.phase ≤ r._queueLength then _ else _) = _
        rw [if_neg h]
      rw [hstep, parseLoop_stuck r.phase (flatR r) habs]
      exact ⟨rfl, rfl, rfl, hinv⟩

/-- `write` simulates the abstract loop on the old bytes extended with the
chunk, and preserves the invariant; its post-state is quiescent. -/
theorem write_sim (r : NetworkReader) (c : Bytes) (hinv : Inv r) :
    (write r c).2 = (parseLoop r.phase (flatR r ++ c)).2.2
      ∧ (write r c).1.phase = (parseLoop r.phase (flatR r ++ c)).1
      ∧ flatR (write r c).1 = (parseLoop r.phase (flatR r ++ c)).2.1
      ∧ Inv (write r c).1 := by
  obtain ⟨hlen, hoff⟩ := hinv
  have hflatapp : bytesFlatten (r._queue ++ [c]) = bytesFlatten r._queue ++ c := by
    induction r._queue with
    | nil => simp [bytesFlatten]
    | cons b t iht => simp [bytesFlatten, iht]
  have hflat' : (bytesFlatten (r._queue ++ [c])).drop r._queueHeadOffset = flatR r ++ c := by
    rw [hflatapp, List.drop_append_of_le_length (by omega)]
    rfl
  have hinv' : Inv (⟨r._queue ++ [c], r._queueLength + c.length, r._queueHeadOffset, r.phase⟩ :
      NetworkReader) := by
    constructor
    · show r._queueLength + c.length + r._queueHeadOffset = (bytesFlatten (r._queue ++ [c])).length
      rw [hflatapp, List.length_append]
      omega
    · show match r._queue ++ [c] with
        | [] => r._queueHeadOffset = 0
        | head :: _ => r._queueHeadOffset ≤ head.length
      cases hq : r._queue with
      | nil =>
        rw [hq] at hoff
        simp only at hoff
        simp [hoff]
      | cons b t =>
        rw [hq] at hoff
        simpa using hoff
  have hm : 2 * (r._queueLength + c.length) + phaseRank r.phase
      < 2 * (r._queueLength + c.length) + 2 := by
    have := phaseRank_le_one r.phase
    omega
  have h := _parseData_sim (2 * (r._queueLength + c.length) + 2)
    ⟨r._queue ++ [c], r._queueLength + c.length, r._queueHeadOffset, r.phase⟩ hinv' hm
  have hfl : flatR (⟨r._queue ++ [c], r._queueLength + c.length, r._queueHeadOffset, r.phase⟩ :
      NetworkReader) = flatR r ++ c := hflat'
  rw [hfl] at h
  exact h

end NetworkReader

namespace NetworkReader

/-- A reader at rest: the buffered bytes cannot satisfy the pending
request (this holds between external events). -/
def Quiescent (r : NetworkReader) : Prop :=
  ¬ phaseNeed r.phase ≤ (flatR r).length

theorem write_quiescent (r : NetworkReader) (c : Bytes) (hinv : Inv r) :
    Quiescent (write r c).1 := by
  have h := write_sim r c hinv
  unfold Quiescent
  rw [h.2.1, h.2.2.1]
  exact parseLoop_post (2 * (flatR r ++ c).length + phaseRank r.phase) r.phase (flatR r ++ c)
    (Nat.le_refl _)

theorem writeAll_sim : ∀ (chunks : List Bytes) (r : NetworkReader),
    Inv r → Quiescent r →
    (writeAll r chunks).2 = (parseLoop r.phase (flatR r ++ bytesFlatten chunks)).2.2 := by
  intro chunks
  induction chunks with
  | nil =>
    intro r hinv hq
    show ([] : List ReaderEvent) = _
    rw [show bytesFlatten [] = ([] : Bytes) from rfl, List.append_nil,
      parseLoop_stuck r.phase (flatR r) hq]
  | cons c rest ih =>
    intro r hinv hq
    have hw := write_sim r c hinv
    have hq' := write_quiescent r c hinv
    have hih := ih (write r c).1 hw.2.2.2 hq'
    show (write r c).2 ++ (writeAll (write r c).1 rest).2 = _
    rw [hih, hw.1, hw.2.1, hw.2.2.1,
      show bytesFlatten (c :: rest) = c ++ bytesFlatten rest from rfl,
      ← List.append_assoc,
      parseLoop_append (2 * (flatR r ++ c).length + phaseRank r.phase) r.phase (flatR r ++ c)
        (bytesFlatten rest) (Nat.le_refl _)]

/-- **C2.** Feeding a byte stream to a fresh reader in arbitrary chunks
(with no `clear()` in between) emits exactly the same event sequence — in
particular the same `message` events in the same order — as feeding the
concatenated stream in a single `write` call. -/
theorem write_chunking_invariant (chunks : List Bytes) :
    (writeAll mk' chunks).2 = (write mk' (bytesFlatten chunks)).2 := by
  have hinv : Inv mk' := ⟨rfl, rfl⟩
  have hq : Quiescent mk' := by
    unfold Quiescent flatR mk'
    simp [phaseNeed, bytesFlatten]
  have h1 := writeAll_sim chunks mk' hinv hq
  have h2 := write_sim mk' (bytesFlatten chunks) hinv
  rw [h1, h2.1]

/-- **C7.** `clear()` discards the buffered bytes and the pending byte
request and abandons any suspended parse, leaving exactly a fresh reader:
every subsequent write sequence emits precisely what it would emit on a
fresh reader, so no `message` or `error` event ever fires for bytes written
before the clear. -/
theorem clear_spec (r : NetworkReader) (chunks : List Bytes) :
    writeAll (clear r) chunks = writeAll mk' chunks
      ∧ (clear r)._queue = [] ∧ (clear r)._queueLength = 0
      ∧ (clear r)._queueHeadOffset = 0 ∧ (clear r).phase = .needMark :=
  ⟨rfl, rfl, rfl, rfl, rfl⟩

end NetworkReader

/-! ## The connection controller (`Client`, `src/unnamed/part_005`)

The client owns the message-id counter, its connection flag, a writer and a
reader. Calls it makes (to the writer, to handler dispatch) are recorded as
an action trace; handler invocation itself (request/event/binary callbacks
and their response plumbing, which run after the ack is sent) is abstracted
into a single `dispatched` action. -/

def ackChannel : Bytes := [97, 99, 107]

inductive ClientAction where
  | writerSend (m : Message) : ClientAction
  | writerOut (o : WriterOutput) : ClientAction
  | writerAcked (id : Nat) : ClientAction
  | dispatched (m : Message) : ClientAction
  | emittedMessage (m : Message) : ClientAction
  | threwUnimplemented : ClientAction
  | threwBadPayload : ClientAction

/-- `true` exactly for `Writer.send` invocations. -/
def ClientAction.isWriterSendA : ClientAction → Bool
  | .writerSend _ => true
  | _ => false

/-- The message id carried by a `Writer.send` invocation, if any. -/
def idOfAction : ClientAction → Option Nat
  | .writerSend m => some m.id
  | _ => none

structure Client where
  _nextMessageId : Nat
  _isConnected : Bool
  _writer : NetworkWriter
  _reader : NetworkReader

namespace Client

/-- The freshly constructed client (`_nextMessageId = 0`). -/
def mk' : Client :=
  ⟨0, false, NetworkWriter.mk', NetworkReader.mk'⟩

/-- `Client._createMessage`: stamps `_nextMessageId++` onto a new message. -/
def _createMessage (c : Client) (type : Nat) (channel : Bytes) : Message × Client :=
  (⟨c._nextMessageId, type, channel, []⟩, { c with _nextMessageId := c._nextMessageId + 1 })

/-- `Client._sendAck`: builds a System message on channel `"ack"` with a
single Json payload holding the incoming message's id, and passes it to
`Writer.send` (fire-and-forget). -/
def _sendAck (c : Client) (message : Message) : Client × List ClientAction :=
  let created := _createMessage c MessageType.System ackChannel
  let ack : Message := { created.1 with payloads := [.json (.num (Int.ofNat message.id))] }
  let sendRes := created.2._writer.send ack
  (created.2, ClientAction.writerSend ack :: sendRes.2.map ClientAction.writerOut)

/-- `Client._dispatchIncomingMessage`: sends the ack first, then extracts
the arguments payload and dispatches to the registered handlers (request /
event / binary handling abstracted into one action). A missing or
non-JSON first payload makes `getJsonPayload(0)` throw after the ack;
the flag reports whether dispatch completed without throwing. -/
def _dispatchIncomingMessage (c : Client) (message : Message) : Client × List ClientAction × Bool :=
  let acked := _sendAck c message
  match message.payloads.head? with
  | some (.json _) => (acked.1, acked.2 ++ [.dispatched message], true)
  | _ => (acked.1, acked.2 ++ [.threwBadPayload], false)

/-- `Client._onMessageReaderEvent`: System messages on channel `"ack"`
route the acknowledged id to `Writer.setMessageAcknowledged`; Response
messages throw (`Response logic not implemented`); everything else is
dispatched (ack first) and then emitted as a `message` event (skipped when
dispatch threw). -/
def _onMessageReaderEvent (c : Client) (message : Message) : Client × List ClientAction :=
  if message.type = MessageType.System then
    (if message.channel = ackChannel then
      match message.payloads.head? with
      | some (.json (.num n)) =>
        ({ c with _writer := c._writer.setMessageAcknowledged n.toNat }, [.writerAcked n.toNat])
      | _ => (c, [.threwBadPayload])
    else (c, []))
  else if message.type = MessageType.Response then
    (c, [.threwUnimplemented])
  else
    let d := _dispatchIncomingMessage c message
    (d.1, d.2.1 ++ if d.2.2 then [.emittedMessage message] else [])

/-- `Client._onConnectedTransportEvent`: mark connected and open the writer
with `isResumed = true` (as the source always does). -/
def _onConnectedTransportEvent (c : Client) : Client × List WriterOutput :=
  let r := c._writer.setConnectionOpened true
  ({ c with _isConnected := true, _writer := r.1 }, r.2)

/-- `Client._onDisconnectedTransportEvent`: clear the reader, mark
disconnected, and treat the disconnect as lost (records retained) when
there was an error or it was unintentional, else as closed. -/
def _onDisconnectedTransportEvent (c : Client) (intentional : Bool) (hasError : Bool) : Client :=
  let c' := { c with _reader := c._reader.clear, _isConnected := false }
  if hasError ∨ ¬ intentional then { c' with _writer := c'._writer.setConnectionLost }
  else { c' with _writer := c'._writer.setConnectionClosed }

end Client

/-- The client operations that touch the id counter or the connection
state, as trace steps. -/
inductive ClientOp where
  | createMessage (type : Nat) (channel : Bytes) : ClientOp
  | onMessage (m : Message) : ClientOp
  | onConnected : ClientOp
  | onDisconnected (intentional : Bool) (hasError : Bool) : ClientOp

/-- State transition of one client operation. -/
def runClientOp (c : Client) : ClientOp → Client
  | .createMessage ty ch => (Client._createMessage c ty ch).2
  | .onMessage m => (Client._onMessageReaderEvent c m).1
  | .onConnected => (Client._onConnectedTransportEvent c).1
  | .onDisconnected i e => Client._onDisconnectedTransportEvent c i e

/-- The message ids assigned during one operation: the created message's id
for a send-path creation, and the ids of the ack messages passed to
`Writer.send` while handling an inbound message. -/
def opAssignedIds (c : Client) : ClientOp → List Nat
  | .createMessage ty ch => [(Client._createMessage c ty ch).1.id]
  | .onMessage m => (Client._onMessageReaderEvent c m).2.filterMap idOfAction
  | _ => []

/-- Runs a trace of operations, collecting every assigned message id in
order. -/
def runTrace (c : Client) : List ClientOp → Client × List Nat
  | [] => (c, [])
  | op :: ops =>
    let t := runTrace (runClientOp c op) ops
    (t.1, opAssignedIds c op ++ t.2)

/-! ## Monotone message ids (claim C8) -/

theorem filterMap_idOf_writerOut (l : List WriterOutput) :
    (l.map ClientAction.writerOut).filterMap idOfAction = [] := by
  induction l with
  | nil => rfl
  | cons o rest ih => simpa [idOfAction] using ih

theorem onMessage_id_facts (c : Client) (m : Message) :
    ((Client._onMessageReaderEvent c m).1._nextMessageId = c._nextMessageId
        ∧ (Client._onMessageReaderEvent c m).2.filterMap idOfAction = [])
      ∨ ((Client._onMessageReaderEvent c m).1._nextMessageId = c._nextMessageId + 1
        ∧ (Client._onMessageReaderEvent c m).2.filterMap idOfAction = [c._nextMessageId]) := by
  unfold Client._onMessageReaderEvent
  by_cases h1 : m.type = MessageType.System
  · rw [if_pos h1]
    by_cases h2 : m.channel = ackChannel
    · rw [if_pos h2]
      left
      split
      · exact ⟨rfl, rfl⟩
      · exact ⟨rfl, rfl⟩
    · rw [if_neg h2]
      left
      exact ⟨rfl, rfl⟩
  · rw [if_neg h1]
    by_cases h2 : m.type = MessageType.Response
    · rw [if_pos h2]
      left
      exact ⟨rfl, rfl⟩
    · rw [if_neg h2]
      right
      unfold Client._dispatchIncomingMessage Client._sendAck Client._createMessage
      dsimp only
      split
      · constructor
        · rfl
        · simp [idOfAction, filterMap_idOf_writerOut]
      · constructor
        · rfl
        · simp [idOfAction, filterMap_idOf_writerOut]

theorem clientOp_id_facts (c : Client) (op : ClientOp) :
    c._nextMessageId ≤ (runClientOp c op)._nextMessageId
      ∧ (∀ x ∈ opAssignedIds c op,
          c._nextMessageId ≤ x ∧ x < (runClientOp c op)._nextMessageId)
      ∧ List.Pairwise (· < ·) (opAssignedIds c op) := by
  cases op with
  | createMessage ty ch =>
    refine ⟨Nat.le_succ _, ?_, by simp [opAssignedIds]⟩
    intro x hx
    have hx' : x = c._nextMessageId := by
      simpa [opAssignedIds, Client._createMessage] using hx
    subst hx'
    exact ⟨Nat.le_refl _, Nat.lt_succ_self _⟩
  | onMessage m =>
    rcases onMessage_id_facts c m with ⟨h1, h2⟩ | ⟨h1, h2⟩
    · refine ⟨?_, ?_, ?_⟩
      · show c._nextMessageId ≤ (Client._onMessageReaderEvent c m).1._nextMessageId
        omega
      · intro x hx
        rw [show opAssignedIds c (.onMessage m)
            = (Client._onMessageReaderEvent c m).2.filterMap idOfAction from rfl, h2] at hx
        simp at hx
      · rw [show opAssignedIds c (.onMessage m)
            = (Client._onMessageReaderEvent c m).2.filterMap idOfAction from rfl, h2]
        exact List.Pairwise.nil
    · refine ⟨?_, ?_, ?_⟩
      · show c._nextMessageId ≤ (Client._onMessageReaderEvent c m).1._nextMessageId
        omega
      · intro x hx
        rw [show opAssignedIds c (.onMessage m)
            = (Client._onMessageReaderEvent c m).2.filterMap idOfAction from rfl, h2] at hx
        have hx' : x = c._nextMessageId := by simpa using hx
        subst hx'
        show c._nextMessageId ≤ c._nextMessageId
            ∧ c._nextMessageId < (Client._onMessageReaderEvent c m).1._nextMessageId
        omega
      · rw [show opAssignedIds c (.onMessage m)
            = (Client._onMessageReaderEvent c m).2.filterMap idOfAction from rfl, h2]
        simp
  | onConnected =>
    refine ⟨?_, by intro x hx; simp [opAssignedIds] at hx, by simp [opAssignedIds]⟩
    show c._nextMessageId ≤ (Client._onConnectedTransportEvent c).1._nextMessageId
    exact Nat.le_refl _
  | onDisconnected i e =>
    refine ⟨?_, by intro x hx; simp [opAssignedIds] at hx, by simp [opAssignedIds]⟩
    show c._nextMessageId ≤ (Client._onDisconnectedTransportEvent c i e)._nextMessageId
    unfold Client._onDisconnectedTransportEvent
    dsimp only
    split
    · exact Nat.le_refl _
    · exact Nat.le_refl _

theorem runTrace_id_facts : ∀ (ops : List ClientOp) (c : Client),
    (∀ x ∈ (runTrace c ops).2, c._nextMessageId ≤ x)
      ∧ List.Pairwise (· < ·) (runTrace c ops).2 := by
  intro ops
  induction ops with
  | nil =>
    intro c
    exact ⟨by intro x hx; simp [runTrace] at hx, by simp [runTrace]⟩
  | cons op ops ih =>
    intro c
    have hop := clientOp_id_facts c op
    have hih := ih (runClientOp c op)
    have hsplit : (runTrace c (op :: ops)).2
        = opAssignedIds c op ++ (runTrace (runClientOp c op) ops).2 := rfl
    constructor
    · intro x hx
      rw [hsplit] at hx
      rcases List.mem_append.mp hx with h | h
      · exact (hop.2.1 x h).1
      · exact Nat.le_trans hop.1 (hih.1 x h)
    · rw [hsplit]
      rw [List.pairwise_append]
      refine ⟨hop.2.2, hih.2, ?_⟩
      intro a ha b hb
      have h1 := (hop.2.1 a ha).2
      have h2 := hih.1 b hb
      omega

/-- **C8.** Across any sequence of client operations — message creations on
the send path (events, binaries, requests, responses), inbound messages
(whose acks share the same counter), connects and disconnects — the
assigned message ids are strictly increasing and never repeat: the counter
is never reset. -/
theorem messageIds_strictly_increasing (ops : List ClientOp) :
    List.Pairwise (· < ·) (runTrace Client.mk' ops).2 :=
  (runTrace_id_facts ops Client.mk').2

/-! ## Inbound ack routing (claim C4) -/

/-- A connected client (counter at 10) over a connected writer. -/
def exampleClient : Client :=
  ⟨10, true, ⟨[], [], [], true⟩, NetworkReader.mk'⟩

/-- Counterexample to C4 as stated: handling a decoded *System* message
(here a well-formed ack) passes nothing to `Writer.send` — no ack message
is built or dispatched for it (nor for Response messages, whose branch
throws). The claim asserts an ack is sent for every decoded message. -/
theorem inboundAck_claimed_counterexample :
    (Client._onMessageReaderEvent exampleClient
        ⟨3, MessageType.System, ackChannel, [.json (.num 3)]⟩).2
      = [ClientAction.writerAcked 3]
    ∧ ((Client._onMessageReaderEvent exampleClient
        ⟨3, MessageType.System, ackChannel, [.json (.num 3)]⟩).2.any
          ClientAction.isWriterSendA) = false :=
  ⟨rfl, rfl⟩

/-- **C4 (amended).** For every decoded message that is neither System nor
Response, the controller first builds a System message on channel `"ack"`
whose single Json payload is the incoming message's id (stamping the next
message id from the shared counter) and passes it to `Writer.send`
fire-and-forget, before the type-based handler dispatch and the `message`
event. System and Response messages trigger no ack: System/`"ack"` routes
straight to `Writer.setMessageAcknowledged`, and the Response branch throws
unimplemented. -/
theorem inboundAck_spec (c : Client) (m : Message)
    (h1 : m.type ≠ MessageType.System) (h2 : m.type ≠ MessageType.Response) :
    ∃ rest, (Client._onMessageReaderEvent c m).2
        = ClientAction.writerSend
            ⟨c._nextMessageId, MessageType.System, ackChannel, [.json (.num (Int.ofNat m.id))]⟩
          :: rest := by
  unfold Client._onMessageReaderEvent
  rw [if_neg h1, if_neg h2]
  unfold Client._dispatchIncomingMessage Client._sendAck Client._createMessage
  dsimp only
  split
  · exact ⟨_, rfl⟩
  · exact ⟨_, rfl⟩

/-- Witness for the amended C4: a concrete Event message on a connected
client is acked first, with the ack carrying the incoming id and stamped
with the client's next counter value. -/
theorem inboundAck_spec_witness :
    MessageType.Event ≠ MessageType.System
      ∧ MessageType.Event ≠ MessageType.Response
      ∧ ∃ rest, (Client._onMessageReaderEvent exampleClient
            ⟨5, MessageType.Event, [101], [.json (.arr [])]⟩).2
          = ClientAction.writerSend
              ⟨10, MessageType.System, ackChannel, [.json (.num (Int.ofNat 5))]⟩
            :: rest :=
  ⟨by decide, by decide,
    inboundAck_spec exampleClient ⟨5, MessageType.Event, [101], [.json (.arr [])]⟩
      (by decide) (by decide)⟩
